import Mathlib

set_option maxHeartbeats 1600000

/-!
Verification development for the erd-viewer schema extractor.

The source program builds an in-memory schema model (tables, columns, unique
keys, primary keys, foreign keys) from ordered catalog row-sets and renders it
as DDL text and as GraphViz edge/node markup.  The definitions below are a
shallow embedding of that source:

* Python object references are represented by lookup keys.  A reference to a
  `Column` is its name inside its owning `Table` (every such reference in the
  source is created by `Table.getColumn`, a first-match search by name, so the
  name resolves to exactly the referenced object); a cross-table reference
  (`Column.fkof`) is the pair (table name, column name), resolved through the
  insertion-ordered table dictionary.
* The insertion-ordered Python dictionaries (`tables`, `Table.uniques`,
  `Table.fks`) are association lists that keep insertion order and key
  uniqueness the same way the dictionaries do.
* Fallible steps (Python `KeyError` on a missing dictionary entry,
  `AttributeError` when a `None` column is used) are modelled with
  `Except`/`Option`; such a fault aborts the import, matching the program.
* String helpers (`lower`, `startswith`, `replace` of a quote) are translated
  character-wise; identifiers and type names handled by the program are ASCII.
-/

/-- Python `str.lower` applied character by character (`Char.toLower` agrees
with it on the ASCII data the program handles). -/
def pyLower (s : String) : String := String.mk (s.data.map Char.toLower)

/-- Python `str.startswith`: the pattern is a prefix of the string. -/
def pyStartswith (s pat : String) : Bool := pat.data.isPrefixOf s.data

/-- Python `.replace` of one single-quote character (code 39) by two of them,
as used for SQL comment escaping. -/
def escapeQuotes : List Char → List Char
  | [] => []
  | c :: rest =>
    if c = Char.ofNat 39 then Char.ofNat 39 :: Char.ofNat 39 :: escapeQuotes rest
    else c :: escapeQuotes rest

/-- Character class of the regex `[A-Z_0-9]`: uppercase ASCII letter (65-90),
underscore (95) or digit (48-57). -/
def isUpperDigit (c : Char) : Bool :=
  (65 ≤ c.toNat && c.toNat ≤ 90) || c.toNat == 95 || (48 ≤ c.toNat && c.toNat ≤ 57)

/-- Semantics of Python `re.match("^[A-Z_0-9]*$", name) != None`: every
character is in the class, or the string ends in a single newline (code 10)
preceded only by characters of the class — in Python, `$` also matches just
before one trailing newline. -/
def reMatchAZ (s : String) : Bool :=
  s.data.all isUpperDigit ||
    (match s.data.getLast? with
     | some c => c == Char.ofNat 10 && s.data.dropLast.all isUpperDigit
     | none => false)

/-- Identifier formatter `getName` of the source: a regex-matching name is
lowercased and left bare, any other name is wrapped in double quotes
unchanged. -/
def getName (name : String) : String :=
  if reMatchAZ name then pyLower name else "\x22" ++ name ++ "\x22"

/-- Column of the schema model.  `tableName` is the back-reference to the
owning table, `fkof` the optional reference to the primary-key column on the
other side of a foreign key, both represented by lookup keys. -/
structure Column where
  tableName : String
  name : String
  comment : String
  nullable : Bool
  datatype : String
  identity : Bool
  isunique : Bool
  ispk : Bool
  fkof : Option (String × String)
deriving DecidableEq

/-- Table of the schema model.  `uniques` and `fks` are the insertion-ordered
constraint dictionaries (name to member-column references), `pks` the ordered
list of primary-key column references. -/
structure Table where
  name : String
  comment : String
  label : String
  columns : List Column
  uniques : List (String × List String)
  pks : List String
  fks : List (String × List String)
deriving DecidableEq

/-- The `tables` dictionary built by the importer, insertion-ordered. -/
abbrev Tables := List (String × Table)

/-- Lookup in the `tables` dictionary (first entry with the key). -/
def lookupTable (tables : Tables) (name : String) : Option Table :=
  (tables.find? (fun p => p.1 == name)).map (fun p => p.2)

/-- Replacement of the value stored under a key, keeping its position; this is
how an in-place mutation of a `Table` object is reflected in the dictionary. -/
def dictUpdate (tables : Tables) (name : String) (t : Table) : Tables :=
  tables.map (fun p => if p.1 == name then (name, t) else p)

/-- Python `tables[name] = table`: replace the entry in place when the key
exists, append it otherwise. -/
def dictInsert (tables : Tables) (name : String) (t : Table) : Tables :=
  if tables.any (fun p => p.1 == name) then dictUpdate tables name t
  else tables ++ [(name, t)]

/-- Appending one member column to a constraint dictionary, creating the entry
first when the constraint name is new (the `if constraint not in ...` pattern
of the source). -/
def dictAppend (m : List (String × List String)) (k v : String) :
    List (String × List String) :=
  if m.any (fun p => p.1 == k) then
    m.map (fun p => if p.1 == k then (p.1, p.2 ++ [v]) else p)
  else m ++ [(k, [v])]

/-- Replacement of the first list element satisfying the test, used to reflect
an in-place mutation of the object `Table.getColumn` returns. -/
def updateFirst {α : Type} : List α → (α → Bool) → (α → α) → List α
  | [], _, _ => []
  | x :: xs, q, f => if q x then f x :: xs else x :: updateFirst xs q f

/-- Source `Table.getColumn`: first column with the given name, `None` when
absent. -/
def Table.getColumn (t : Table) (name : String) : Option Column :=
  t.columns.find? (fun c => c.name == name)

/-- Mutation of the column object `getColumn name` returns: the first column
with that name is replaced by its image under `f`. -/
def Table.updateColumn (t : Table) (name : String) (f : Column → Column) : Table :=
  { t with columns := updateFirst t.columns (fun c => c.name == name) f }

/-- Local `nullable` of `Column.getCreateColumn`: the NOT NULL suffix is empty
when the column is nullable or is its table's sole primary-key column.  The
owning table (`self.table` in the source) is passed explicitly. -/
def Column.nullableSuffix (t : Table) (c : Column) : String :=
  if c.nullable = true ∨ (c.ispk = true ∧ t.pks.length = 1) then "" else " not null"

/-- Local `identity` of `Column.getCreateColumn`. -/
def Column.identitySuffix (c : Column) : String :=
  if c.identity = false then "" else " identity"

/-- Local `pk` of `Column.getCreateColumn`: inline PRIMARY KEY clause, present
only for a primary-key column of a table with fewer than two PK columns. -/
def Column.pkSuffix (t : Table) (c : Column) : String :=
  if c.ispk = false ∨ 2 ≤ t.pks.length then "" else " primary key"

/-- Local `comment` of `Column.getCreateColumn`: escaped comment clause, empty
for an empty comment. -/
def Column.commentSuffix (c : Column) : String :=
  let comment := String.mk (escapeQuotes c.comment.data)
  if comment = "" then "" else " comment \x27" ++ comment ++ "\x27"

/-- Source `Column.getCreateColumn`: one column definition line of a CREATE
TABLE statement, for the owning table `t`. -/
def Column.getCreateColumn (t : Table) (c : Column) : String :=
  "\n  " ++ getName c.name ++ " " ++ c.datatype ++
    Column.nullableSuffix t c ++ Column.identitySuffix c ++
    Column.pkSuffix t c ++ Column.commentSuffix c

/-- Source `Table.getUniques`: the trailing UNIQUE clause of one named unique
constraint. -/
def Table.getUniques (t : Table) (name : String) : String :=
  let constraint := (((t.uniques.find? (fun p => p.1 == name)).map (fun p => p.2)).getD [])
  ",\n  unique (" ++ String.intercalate (", ") (constraint.map getName) ++ ")"

/-- Source `Table.getPKs`: the trailing composite PRIMARY KEY clause, listing
the `pks` columns in stored order. -/
def Table.getPKs (t : Table) : String :=
  ",\n  primary key (" ++ String.intercalate (", ") (t.pks.map getName) ++ ")"

/-- Head of the CREATE TABLE statement built by `Table.getCreateTable`. -/
def Table.createHeader (t : Table) : String :=
  "create or replace table " ++ getName t.name ++ " ("

/-- Column definitions of the CREATE TABLE statement, comma separated (the
`first` flag of the source loop). -/
def Table.columnsPart (t : Table) : String :=
  String.intercalate (",") (t.columns.map (fun c => Column.getCreateColumn t c))

/-- Trailing UNIQUE clauses, one per constraint in dictionary order. -/
def Table.uniquesPart (t : Table) : String :=
  String.join (t.uniques.map (fun p => Table.getUniques t p.1))

/-- Trailing composite PRIMARY KEY clause, appended only when the table has at
least two primary-key columns. -/
def Table.pkPart (t : Table) : String :=
  if 2 ≤ t.pks.length then Table.getPKs t else ""

/-- Table COMMENT clause of the CREATE TABLE statement. -/
def Table.commentPart (t : Table) : String :=
  if t.comment = "" then ""
  else " comment = \x27" ++ String.mk (escapeQuotes t.comment.data) ++ "\x27"

/-- Source `Table.getCreateTable`: the full CREATE OR REPLACE TABLE statement,
assembled in the order the source appends its pieces. -/
def Table.getCreateTable (t : Table) : String :=
  Table.createHeader t ++ Table.columnsPart t ++ Table.uniquesPart t ++
    Table.pkPart t ++ "\n)" ++ Table.commentPart t ++ ";\n\n"

/-- Edge colour of `Table.getDotLinks`, per theme. -/
def edgePenColor (theme : String) : String :=
  if theme = "Blue Navy" then "#0078d7" else "#696969"

/-- Edge width of `Table.getDotLinks`, per theme. -/
def edgePenWidth (theme : String) : String :=
  if theme = "Blue Navy" then "2" else "1"

/-- Body of the `Table.getDotLinks` loop for one foreign-key constraint: the
single edge line drawn for it.  `fkNames` is the stored member-column list;
only its first member is consulted.  The constraint's child column, its `fkof`
reference and the referenced table are resolved exactly as the source
dereferences `fks[constraint][0].fkof.table`; a dangling reference (impossible
after a successful import) yields `none`. -/
def Table.getDotLink (tables : Tables) (theme : String) (t : Table)
    (fkNames : List String) : Option String :=
  match fkNames with
  | [] => none
  | fkName :: _ =>
    match Table.getColumn t fkName with
    | none => none
    | some fk1 =>
      match fk1.fkof with
      | none => none
      | some ref =>
        match lookupTable tables ref.1 with
        | none => none
        | some pktable =>
          let dashed := if fk1.nullable = false then "" else " style=\x22dashed\x22"
          let arrow :=
            if fk1.ispk = true ∧ t.pks.length = pktable.pks.length then ""
            else " arrowtail=\x22crow\x22"
          some ("  " ++ t.label ++ " -> " ++ pktable.label ++
            " [ penwidth=\x22" ++ edgePenWidth theme ++ "\x22 color=\x22" ++
            edgePenColor theme ++ "\x22" ++ dashed ++ arrow ++ " ]\n")

/-- Source `Table.getDotLinks`: the loop `s += ...` over the `fks` dictionary,
concatenating one edge line per foreign-key constraint of the table. -/
def Table.getDotLinks (tables : Tables) (theme : String) (t : Table) :
    Option String :=
  t.fks.foldlM
    (fun s p => (Table.getDotLink tables theme t p.2).map (fun line => s ++ line)) ""

/-- Structured type descriptor parsed from the JSON of a column row: `type` and
`nullable` are always present, the remaining keys optional. -/
structure RawType where
  type : String
  nullable : Bool
  fixed : Option Bool
  length : Option Int
  precision : Option Int
  scale : Option Int
deriving DecidableEq

/-- Type normalization of the importer (the datatype conversion block of
`importMetadata`): FIXED becomes NUMBER, TEXT becomes CHAR or VARCHAR by the
`fixed` flag, then a length or precision/scale suffix is attached, with the
TIMESTAMP_NTZ(9), NUMBER(38) and NUMBER(p) special cases, and the result is
lowercased.  Reading `precision` while only `scale` is present is a Python
`KeyError`, modelled by `none`. -/
def normalizeDatatype (d : RawType) : Option String :=
  let dt1 :=
    if d.type = "FIXED" then "NUMBER"
    else
      match d.fixed with
      | some fixed => if d.type = "TEXT" then (if fixed then "CHAR" else "VARCHAR") else d.type
      | none => d.type
  let res : Option String :=
    match d.length with
    | some len => some (dt1 ++ "(" ++ toString len ++ ")")
    | none =>
      match d.scale with
      | some scale =>
        match d.precision with
        | none => none
        | some precision =>
          if precision = 0 then
            let t := dt1 ++ "(" ++ toString scale ++ ")"
            some (if t = "TIMESTAMP_NTZ(9)" then "TIMESTAMP" else t)
          else if scale = 0 then
            let t := dt1 ++ "(" ++ toString precision ++ ")"
            some (if t = "NUMBER(38)" then "INT"
              else if pyStartswith t ("NUMBER(") then "INT(" ++ toString precision ++ ")"
              else t)
          else some (dt1 ++ "(" ++ toString precision ++ "," ++ toString scale ++ ")")
      | none => some dt1
  res.map pyLower

/-- Python `list.insert(i, x)`: a negative index counts from the end, and the
index is clamped into the list. -/
def pyInsert {α : Type} (l : List α) (i : Int) (x : α) : List α :=
  let n : Int := Int.ofNat l.length
  let j : Nat :=
    if i < 0 then (if i + n < 0 then 0 else (i + n).toNat)
    else (if n < i then l.length else i.toNat)
  l.take j ++ x :: l.drop j

/-- Row of `show tables`: name (position 1) and comment (position 5). -/
structure TableRow where
  name : String
  comment : String
deriving DecidableEq

/-- Row of `show columns`: owning table (0), column name (2), parsed type
descriptor (3), comment (8) and identity marker (10). -/
structure ColumnRow where
  tableName : String
  name : String
  datatype : RawType
  comment : String
  identityStr : String
deriving DecidableEq

/-- Row of `show unique keys`: table (3), column (4), constraint name (6). -/
structure UniqueRow where
  tableName : String
  columnName : String
  constraintName : String
deriving DecidableEq

/-- Row of `show primary keys`: table (3), column (4) and 1-based key-sequence
position (5). -/
structure PKRow where
  tableName : String
  columnName : String
  pos : Int
deriving DecidableEq

/-- Row of `show imported keys`: parent schema (2), parent table (3), parent
column (4), child schema (6), child table (7), child column (8) and constraint
name (12). -/
structure FKRow where
  pkSchema : String
  pkTableName : String
  pkColumnName : String
  fkSchema : String
  fkTableName : String
  fkColumnName : String
  constraintName : String
deriving DecidableEq

/-- Tables phase of `importMetadata`, one row: store the new `Table` under its
name and assign its sequential diagram label from the dictionary size after
insertion. -/
def importTableRow (tables : Tables) (row : TableRow) : Tables :=
  let count := if tables.any (fun p => p.1 == row.name) then tables.length else tables.length + 1
  dictInsert tables row.name
    { name := row.name, comment := row.comment, label := "n" ++ toString count,
      columns := [], uniques := [], pks := [], fks := [] }

/-- Tables phase of `importMetadata` over all rows, starting from the empty
dictionary. -/
def importTables (rows : List TableRow) : Tables :=
  rows.foldl importTableRow []

/-- Columns phase of `importMetadata`, one row: attach a fresh `Column` with
normalized datatype to its table.  A missing table is a Python `KeyError`
(fatal); a failing datatype conversion likewise aborts. -/
def importColumnRow (tables : Tables) (row : ColumnRow) : Except String Tables :=
  match lookupTable tables row.tableName with
  | none => Except.error ("KeyError: " ++ row.tableName)
  | some table =>
    match normalizeDatatype row.datatype with
    | none => Except.error ("KeyError: precision")
    | some dt =>
      let column : Column :=
        { tableName := row.tableName, name := row.name, comment := row.comment,
          nullable := row.datatype.nullable, datatype := dt,
          identity := row.identityStr ≠ "", isunique := false, ispk := false,
          fkof := none }
      Except.ok (dictUpdate tables row.tableName
        { table with columns := table.columns ++ [column] })

/-- Columns phase over all rows. -/
def importColumns (tables : Tables) (rows : List ColumnRow) : Except String Tables :=
  rows.foldlM importColumnRow tables

/-- Unique-keys phase of `importMetadata`, one row: append the member column to
the named constraint and flag the column unique.  A missing table is a
`KeyError`; a missing column makes the source set an attribute on `None`
(fatal `AttributeError`). -/
def importUniqueRow (tables : Tables) (row : UniqueRow) : Except String Tables :=
  match lookupTable tables row.tableName with
  | none => Except.error ("KeyError: " ++ row.tableName)
  | some table =>
    match Table.getColumn table row.columnName with
    | none => Except.error ("AttributeError: NoneType")
    | some _ =>
      let table2 := { table with uniques := dictAppend table.uniques row.constraintName row.columnName }
      let table3 := Table.updateColumn table2 row.columnName (fun c => { c with isunique := true })
      Except.ok (dictUpdate tables row.tableName table3)

/-- Unique-keys phase over all rows. -/
def importUniques (tables : Tables) (rows : List UniqueRow) : Except String Tables :=
  rows.foldlM importUniqueRow tables

/-- Primary-keys phase of `importMetadata`, one row: flag the column as primary
key and insert its reference into `pks` at the declared position minus one,
with Python `list.insert` clamping. -/
def importPKRow (tables : Tables) (row : PKRow) : Except String Tables :=
  match lookupTable tables row.tableName with
  | none => Except.error ("KeyError: " ++ row.tableName)
  | some table =>
    match Table.getColumn table row.columnName with
    | none => Except.error ("AttributeError: NoneType")
    | some _ =>
      let table2 := Table.updateColumn table row.columnName (fun c => { c with ispk := true })
      let table3 := { table2 with pks := pyInsert table2.pks (row.pos - 1) row.columnName }
      Except.ok (dictUpdate tables row.tableName table3)

/-- Primary-keys phase over all rows. -/
def importPKs (tables : Tables) (rows : List PKRow) : Except String Tables :=
  rows.foldlM importPKRow tables

/-- Foreign-keys phase of `importMetadata`, one row, threading the warning
list.  Both table lookups happen before the schema comparison (`KeyError` when
missing).  When parent and child schemas differ, a warning is recorded and
nothing else changes.  Otherwise the child column is appended to the child
table's `fks` constraint and its `fkof` is set to the parent reference —
`None` when the parent column did not resolve, exactly as the source assigns
the result of `getColumn`.  A missing child column is fatal in both branches
(the warning text and the attribute assignment both dereference it). -/
def importFKRow (st : Tables × List String) (row : FKRow) :
    Except String (Tables × List String) :=
  match lookupTable st.1 row.pkTableName with
  | none => Except.error ("KeyError: " ++ row.pkTableName)
  | some pktable =>
    let pkcolumn := Table.getColumn pktable row.pkColumnName
    match lookupTable st.1 row.fkTableName with
    | none => Except.error ("KeyError: " ++ row.fkTableName)
    | some fktable =>
      match Table.getColumn fktable row.fkColumnName with
      | none => Except.error ("AttributeError: NoneType")
      | some fkcolumn =>
        if row.pkSchema ≠ row.fkSchema then
          Except.ok (st.1, st.2 ++
            ["??? Relationship accross schemas, for " ++ fktable.name ++ "." ++ fkcolumn.name ++ "!"])
        else
          let fktable2 := { fktable with fks := dictAppend fktable.fks row.constraintName row.fkColumnName }
          let fktable3 := Table.updateColumn fktable2 row.fkColumnName
            (fun c => { c with fkof := pkcolumn.map (fun _ => (row.pkTableName, row.pkColumnName)) })
          Except.ok (dictUpdate st.1 row.fkTableName fktable3, st.2)

/-- Foreign-keys phase over all rows, accumulating warnings. -/
def importFKs (tables : Tables) (rows : List FKRow) :
    Except String (Tables × List String) :=
  rows.foldlM importFKRow (tables, [])

/-- Source `importMetadata`: the five phases in their fixed order — tables,
columns, unique keys, primary keys, foreign keys.  Returns the populated table
dictionary and the cross-schema warnings. -/
def importMetadata (trows : List TableRow) (crows : List ColumnRow)
    (urows : List UniqueRow) (prows : List PKRow) (frows : List FKRow) :
    Except String (Tables × List String) :=
  let t0 := importTables trows
  match importColumns t0 crows with
  | Except.error e => Except.error e
  | Except.ok t1 =>
    match importUniques t1 urows with
    | Except.error e => Except.error e
    | Except.ok t2 =>
      match importPKs t2 prows with
      | Except.error e => Except.error e
      | Except.ok t3 => importFKs t3 frows

/-! ### Helper lemmas: lowercasing, decimal rendering, string shapes -/

theorem pyLower_append (a b : String) : pyLower (a ++ b) = pyLower a ++ pyLower b := by
  apply String.ext
  simp [pyLower, String.data_append]

theorem digitChar_toLower (n : Nat) : (Nat.digitChar n).toLower = Nat.digitChar n := by
  rcases Nat.lt_or_ge n 16 with h | h
  · interval_cases n <;> decide
  · have hstar : Nat.digitChar n = Char.ofNat 42 := by
      have h0 : n ≠ 0 := by omega
      have h1 : n ≠ 1 := by omega
      have h2 : n ≠ 2 := by omega
      have h3 : n ≠ 3 := by omega
      have h4 : n ≠ 4 := by omega
      have h5 : n ≠ 5 := by omega
      have h6 : n ≠ 6 := by omega
      have h7 : n ≠ 7 := by omega
      have h8 : n ≠ 8 := by omega
      have h9 : n ≠ 9 := by omega
      have h10 : n ≠ 10 := by omega
      have h11 : n ≠ 11 := by omega
      have h12 : n ≠ 12 := by omega
      have h13 : n ≠ 13 := by omega
      have h14 : n ≠ 14 := by omega
      have h15 : n ≠ 15 := by omega
      simp [Nat.digitChar, h0, h1, h2, h3, h4, h5, h6, h7, h8, h9, h10, h11,
        h12, h13, h14, h15]
    rw [hstar]
    decide

theorem toDigitsCore_toLower (b : Nat) :
    ∀ (fuel n : Nat) (acc : List Char), (∀ c ∈ acc, c.toLower = c) →
      ∀ c ∈ Nat.toDigitsCore b fuel n acc, c.toLower = c
  | 0, n, acc, hacc => by simpa [Nat.toDigitsCore] using hacc
  | fuel+1, n, acc, hacc => by
    simp only [Nat.toDigitsCore]
    split
    · intro c hc
      rcases List.mem_cons.mp hc with h1 | h1
      · rw [h1]; exact digitChar_toLower _
      · exact hacc _ h1
    · exact toDigitsCore_toLower b fuel (n / b) _ (by
        intro c hc
        rcases List.mem_cons.mp hc with h1 | h1
        · rw [h1]; exact digitChar_toLower _
        · exact hacc _ h1)

theorem list_map_self {α : Type} (f : α → α) :
    ∀ l : List α, (∀ c ∈ l, f c = c) → l.map f = l
  | [], _ => rfl
  | x :: xs, h => by
    simp only [List.map_cons]
    rw [h x (List.mem_cons_self x xs),
      list_map_self f xs (fun c hc => h c (List.mem_cons_of_mem _ hc))]

theorem pyLower_natRepr (n : Nat) : pyLower (Nat.repr n) = Nat.repr n := by
  apply String.ext
  show (Nat.repr n).data.map Char.toLower = (Nat.repr n).data
  apply list_map_self
  intro c hc
  have hdata : (Nat.repr n).data = Nat.toDigitsCore 10 (n+1) n [] := rfl
  rw [hdata] at hc
  exact toDigitsCore_toLower 10 (n+1) n []
    (fun _ hx => absurd hx (List.not_mem_nil _)) c hc

theorem pyLower_intToString (i : Int) : pyLower (toString i) = toString i := by
  cases i with
  | ofNat m =>
    have h : toString (Int.ofNat m) = Nat.repr m := rfl
    rw [h]
    exact pyLower_natRepr m
  | negSucc m =>
    have h : toString (Int.negSucc m) = "-" ++ Nat.repr (m+1) := rfl
    have h2 : pyLower ("-") = "-" := by decide
    rw [h, pyLower_append, pyLower_natRepr, h2]

theorem digitChar_eq_three {m : Nat} (hm : m < 10) (h : Nat.digitChar m = '3') :
    m = 3 := by
  interval_cases m <;> revert h <;> decide

theorem digitChar_eq_eight {m : Nat} (hm : m < 10) (h : Nat.digitChar m = '8') :
    m = 8 := by
  interval_cases m <;> revert h <;> decide

theorem toDigitsCore_lt10 (fuel n : Nat) (acc : List Char) (hn : n < 10) :
    Nat.toDigitsCore 10 (fuel+1) n acc = Nat.digitChar n :: acc := by
  simp only [Nat.toDigitsCore]
  have h1 : n / 10 = 0 := Nat.div_eq_of_lt hn
  have h2 : n % 10 = n := Nat.mod_eq_of_lt hn
  simp [h1, h2]

theorem toDigitsCore_ge10 (fuel n : Nat) (acc : List Char) (hn : 10 ≤ n) :
    Nat.toDigitsCore 10 (fuel+1) n acc =
      Nat.toDigitsCore 10 fuel (n / 10) (Nat.digitChar (n % 10) :: acc) := by
  simp only [Nat.toDigitsCore]
  have h1 : ¬ (n / 10 = 0) := by
    have h2 := Nat.div_pos hn (by omega)
    omega
  simp [h1]

theorem toDigitsCore_length (b : Nat) :
    ∀ (fuel n : Nat) (acc : List Char), 0 < fuel →
      acc.length + 1 ≤ (Nat.toDigitsCore b fuel n acc).length
  | 0, _, _, h => by omega
  | fuel+1, n, acc, _ => by
    simp only [Nat.toDigitsCore]
    split
    · simp
    · cases fuel with
      | zero => simp [Nat.toDigitsCore]
      | succ f =>
        have h3 := toDigitsCore_length b (f+1) (n / b)
          (Nat.digitChar (n % b) :: acc) (by omega)
        simp at h3 ⊢
        omega

theorem natRepr_eq_38 (n : Nat) (h : Nat.repr n = "38") : n = 38 := by
  have h1 : Nat.toDigitsCore 10 (n+1) n [] = ['3', '8'] := congrArg String.data h
  by_cases hn : n < 10
  · rw [toDigitsCore_lt10 n n [] hn] at h1
    injection h1 with h2 h3
    exact absurd h3 (by simp)
  · push_neg at hn
    obtain ⟨f, rfl⟩ : ∃ f, n = f + 1 := ⟨n - 1, by omega⟩
    rw [toDigitsCore_ge10 (f+1) (f+1) [] hn] at h1
    by_cases hq : (f+1) / 10 < 10
    · rw [toDigitsCore_lt10 f ((f+1) / 10) _ hq] at h1
      injection h1 with h2 h3
      injection h3 with h4 h5
      have hq3 : (f+1) / 10 = 3 := digitChar_eq_three hq h2
      have hm8 : (f+1) % 10 = 8 := digitChar_eq_eight (Nat.mod_lt _ (by omega)) h4
      have hdm := Nat.div_add_mod (f+1) 10
      omega
    · push_neg at hq
      have hf99 : 99 ≤ f := by
        have h5 := (Nat.le_div_iff_mul_le (by omega : 0 < 10)).mp hq
        omega
      obtain ⟨g, rfl⟩ : ∃ g, f = g + 1 := ⟨f - 1, by omega⟩
      rw [toDigitsCore_ge10 (g+1) ((g+1+1) / 10) _ hq] at h1
      have hlen := toDigitsCore_length 10 (g+1) (((g+1+1) / 10) / 10)
        (Nat.digitChar (((g+1+1) / 10) % 10) :: [Nat.digitChar ((g+1+1) % 10)])
        (by omega)
      rw [h1] at hlen
      simp at hlen

theorem toString_int_eq_38 (i : Int) (h : toString i = "38") : i = 38 := by
  cases i with
  | ofNat m =>
    have h1 : Nat.repr m = "38" := h
    rw [natRepr_eq_38 m h1]
    rfl
  | negSucc m =>
    exfalso
    have h2 := congrArg String.data h
    rw [show toString (Int.negSucc m) = "-" ++ Nat.repr (m+1) from rfl,
      String.data_append] at h2
    have h3 : ('-' :: (Nat.repr (m+1)).data) = ['3', '8'] := h2
    injection h3 with h4 h5
    exact absurd h4 (by decide)

theorem number_ne_timestamp (x : String) :
    ("NUMBER(" ++ x ++ ")") ≠ "TIMESTAMP_NTZ(9)" := by
  intro h
  have h2 := congrArg String.data h
  rw [String.data_append, String.data_append] at h2
  injection h2 with h3 h4
  exact absurd h3 (by decide)

theorem number_append_inj (x : String)
    (h : ("NUMBER(" ++ x ++ ")") = "NUMBER(38)") : x = "38" := by
  have h2 := congrArg String.data h
  rw [String.data_append, String.data_append] at h2
  have h3 : "NUMBER(".data ++ (x.data ++ [')']) =
      "NUMBER(".data ++ ("38".data ++ [')']) := by
    rw [← List.append_assoc]
    exact h2
  have h4 := List.append_cancel_left h3
  have h5 := List.append_cancel_right h4
  exact String.ext h5

theorem pyStartswith_number (x : String) :
    pyStartswith ("NUMBER(" ++ x ++ ")") ("NUMBER(") = true := by
  unfold pyStartswith
  apply List.isPrefixOf_iff_prefix.mpr
  rw [String.data_append, String.data_append, List.append_assoc]
  exact List.prefix_append _ _

/-! ### The identifier formatter (claims C5 and C10) -/

theorem reMatchAZ_iff (s : String) :
    reMatchAZ s = true ↔
      (s.data.all isUpperDigit = true ∨
        ∃ u : String, s = u ++ "\n" ∧ u.data.all isUpperDigit = true) := by
  have hnl : ("\n").data = [Char.ofNat 10] := by decide
  unfold reMatchAZ
  rw [Bool.or_eq_true]
  constructor
  · rintro (h | h)
    · exact Or.inl h
    · right
      rcases hlast : s.data.getLast? with _ | c
      · rw [hlast] at h
        simp at h
      · rw [hlast] at h
        rw [Bool.and_eq_true] at h
        obtain ⟨h1, h2⟩ := h
        have hc : c = Char.ofNat 10 := by simpa using h1
        have hne : s.data ≠ [] := by
          intro h0
          rw [h0] at hlast
          simp at hlast
        refine ⟨String.mk s.data.dropLast, ?_, h2⟩
        apply String.ext
        rw [String.data_append, hnl]
        have hsplit := List.dropLast_append_getLast hne
        have hgl : s.data.getLast hne = c := by
          have := List.getLast?_eq_getLast s.data hne
          rw [hlast] at this
          exact (Option.some.injEq _ _).mp this.symm
        rw [hgl, hc] at hsplit
        exact hsplit.symm
  · rintro (h | ⟨u, rfl, hu⟩)
    · exact Or.inl h
    · right
      have hdata : (u ++ "\n").data = u.data ++ [Char.ofNat 10] := by
        rw [String.data_append, hnl]
      rw [hdata]
      simp [hu]

/-- C10: the identifier formatter maps the empty string to the empty string,
bare and unquoted — the empty string matches the anchored pattern because the
star allows zero characters, so it is returned lowercased, which is itself. -/
theorem c10_empty_identifier : getName "" = "" := by decide

/-- C5 counterexample: the string made of an uppercase letter followed by a
newline does not consist only of uppercase letters, digits and underscores,
yet `getName` returns it lowercased and bare instead of wrapped in double
quotes — Python `$` also matches just before one trailing newline, so the
claimed quoting rule is violated at this input. -/
theorem c5_counterexample :
    ("A\n").data.all isUpperDigit = false ∧ getName "A\n" = "a\n" ∧
      getName "A\n" ≠ "\x22A\n\x22" := by
  refine ⟨by decide, by decide, by decide⟩

/-- C5 (amended): an identifier made only of uppercase letters, digits and
underscores — or such a body followed by one trailing newline, the artifact of
the anchored regex — is returned lowercased and bare; any other identifier is
returned wrapped in double quotes, characters preserved exactly.  The two
spec examples behave as stated. -/
theorem c5_identifier_quoting_amended (s : String) :
    (s.data.all isUpperDigit = true → getName s = pyLower s)
    ∧ ((∃ u : String, s = u ++ "\n" ∧ u.data.all isUpperDigit = true) →
        getName s = pyLower s)
    ∧ (s.data.all isUpperDigit = false →
        (¬ ∃ u : String, s = u ++ "\n" ∧ u.data.all isUpperDigit = true) →
        getName s = "\x22" ++ s ++ "\x22")
    ∧ getName "My Table" = "\x22My Table\x22" ∧ getName "TABLE_1" = "table_1" := by
  refine ⟨?_, ?_, ?_, by decide, by decide⟩
  · intro h
    unfold getName
    rw [if_pos ((reMatchAZ_iff s).mpr (Or.inl h))]
  · intro h
    unfold getName
    rw [if_pos ((reMatchAZ_iff s).mpr (Or.inr h))]
  · intro h1 h2
    unfold getName
    rw [if_neg]
    intro hm
    rcases (reMatchAZ_iff s).mp hm with h3 | h3
    · rw [h1] at h3
      exact absurd h3 (by decide)
    · exact h2 h3

theorem c5_witness :
    getName "TABLE_1" = pyLower "TABLE_1" ∧
      getName "My Table" = "\x22My Table\x22" :=
  ⟨(c5_identifier_quoting_amended "TABLE_1").1 (by decide),
    (c5_identifier_quoting_amended "My Table").2.2.2.1⟩

/-! ### Column rendering (claims C4 and C2) -/

/-- C4: in a rendered column definition the NOT NULL suffix is omitted exactly
when the column is nullable or is its table's sole primary-key column, and
otherwise the suffix emitted is the literal " not null"; the suffix occupies
its fixed place in `Column.getCreateColumn`. -/
theorem c4_not_null_suffix (t : Table) (c : Column) :
    (Column.nullableSuffix t c = "" ↔
      (c.nullable = true ∨ (c.ispk = true ∧ t.pks.length = 1)))
    ∧ (Column.nullableSuffix t c ≠ "" → Column.nullableSuffix t c = " not null")
    ∧ Column.getCreateColumn t c =
        "\n  " ++ getName c.name ++ " " ++ c.datatype ++ Column.nullableSuffix t c ++
          Column.identitySuffix c ++ Column.pkSuffix t c ++ Column.commentSuffix c := by
  refine ⟨?_, ?_, rfl⟩
  · unfold Column.nullableSuffix
    split
    · next h => exact iff_of_true rfl h
    · next h =>
      constructor
      · intro habs
        exact absurd habs (by decide)
      · intro hcond
        exact absurd hcond h
  · unfold Column.nullableSuffix
    split
    · intro h
      exact absurd rfl h
    · intro _
      rfl

/-- Witness data: a non-nullable, non-key column in a keyless table. -/
def c4col : Column :=
  { tableName := "T", name := "A", comment := "", nullable := false,
    datatype := "int", identity := false, isunique := false, ispk := false,
    fkof := none }

/-- Witness data: the table owning `c4col`. -/
def c4tab : Table :=
  { name := "T", comment := "", label := "n1", columns := [c4col],
    uniques := [], pks := [], fks := [] }

theorem c4_witness : Column.nullableSuffix c4tab c4col = " not null" :=
  (c4_not_null_suffix c4tab c4col).2.1 (by decide)

/-- C2: a table with exactly one primary-key column renders that column with
the inline PRIMARY KEY clause and appends no trailing composite clause, while
a table with two or more primary-key columns renders no inline clause on any
column and appends the single trailing composite clause, listing the stored
primary-key columns in order. -/
theorem c2_primary_key_clause_rendering (t : Table) :
    (∀ n c, t.pks = [n] → Table.getColumn t n = some c → c.ispk = true →
      Column.getCreateColumn t c =
        "\n  " ++ getName c.name ++ " " ++ c.datatype ++ Column.nullableSuffix t c ++
          Column.identitySuffix c ++ " primary key" ++ Column.commentSuffix c ∧
      Table.pkPart t = "" ∧
      Table.getCreateTable t =
        Table.createHeader t ++ Table.columnsPart t ++ Table.uniquesPart t ++ "\n)" ++
          Table.commentPart t ++ ";\n\n")
    ∧ (2 ≤ t.pks.length →
      (∀ c, Column.pkSuffix t c = "") ∧
      Table.pkPart t = Table.getPKs t ∧
      Table.getPKs t =
        ",\n  primary key (" ++ String.intercalate (", ") (t.pks.map getName) ++ ")") := by
  constructor
  · intro n c hpks hcol hispk
    have hlen : t.pks.length = 1 := by rw [hpks]; rfl
    have hpk : Column.pkSuffix t c = " primary key" := by
      unfold Column.pkSuffix
      rw [if_neg]
      simp [hispk, hlen]
    have hpp : Table.pkPart t = "" := by
      unfold Table.pkPart
      rw [if_neg]
      omega
    refine ⟨?_, hpp, ?_⟩
    · unfold Column.getCreateColumn
      rw [hpk]
    · unfold Table.getCreateTable
      rw [hpp, String.append_empty]
  · intro h2
    refine ⟨?_, ?_, rfl⟩
    · intro c
      unfold Column.pkSuffix
      rw [if_pos (Or.inr h2)]
    · unfold Table.pkPart
      rw [if_pos h2]

/-- Witness data: the sole primary-key column of `c2tabA`. -/
def c2colA : Column :=
  { tableName := "T", name := "A", comment := "", nullable := false,
    datatype := "int", identity := false, isunique := false, ispk := true,
    fkof := none }

/-- Witness data: a table with exactly one primary-key column. -/
def c2tabA : Table :=
  { name := "T", comment := "", label := "n1", columns := [c2colA],
    uniques := [], pks := ["A"], fks := [] }

/-- Witness data: a table with two primary-key columns. -/
def c2tabB : Table :=
  { name := "U", comment := "", label := "n2",
    columns := [{ c2colA with tableName := "U" },
                { c2colA with tableName := "U", name := "B" }],
    uniques := [], pks := ["A", "B"], fks := [] }

theorem c2_witness :
    Table.pkPart c2tabA = "" ∧ Column.pkSuffix c2tabB c2colA = "" ∧
      Table.pkPart c2tabB = Table.getPKs c2tabB :=
  ⟨((c2_primary_key_clause_rendering c2tabA).1 "A" c2colA rfl rfl rfl).2.1,
    ((c2_primary_key_clause_rendering c2tabB).2 (by decide)).1 c2colA,
    ((c2_primary_key_clause_rendering c2tabB).2 (by decide)).2.1⟩

/-! ### Type normalization (claims C3 and C6) -/

theorem normalizeDatatype_num_p0 (nb : Bool) (fx : Option Bool) (sc : Int) :
    normalizeDatatype
      { type := "NUMBER", nullable := nb, fixed := fx, length := none,
        precision := some 0, scale := some sc } =
      some (pyLower
        (if ("NUMBER(" ++ toString sc ++ ")") = "TIMESTAMP_NTZ(9)" then "TIMESTAMP"
         else "NUMBER(" ++ toString sc ++ ")")) := by
  rcases fx with _ | b
  · rfl
  · rfl

theorem normalizeDatatype_num_s0 (nb : Bool) (fx : Option Bool) (p : Int)
    (hp : p ≠ 0) :
    normalizeDatatype
      { type := "NUMBER", nullable := nb, fixed := fx, length := none,
        precision := some p, scale := some 0 } =
      some (pyLower
        (if ("NUMBER(" ++ toString p ++ ")") = "NUMBER(38)" then "INT"
         else if pyStartswith ("NUMBER(" ++ toString p ++ ")") ("NUMBER(") then
           "INT(" ++ toString p ++ ")"
         else "NUMBER(" ++ toString p ++ ")")) := by
  rcases fx with _ | b
  all_goals (show Option.map pyLower (if p = 0 then _ else _) = _; rw [if_neg hp]; rfl)

theorem normalizeDatatype_num_ps (nb : Bool) (fx : Option Bool) (p sc : Int)
    (hp : p ≠ 0) (hsc : sc ≠ 0) :
    normalizeDatatype
      { type := "NUMBER", nullable := nb, fixed := fx, length := none,
        precision := some p, scale := some sc } =
      some (pyLower ("NUMBER(" ++ toString p ++ "," ++ toString sc ++ ")")) := by
  rcases fx with _ | b
  all_goals
    (show Option.map pyLower (if p = 0 then _ else if sc = 0 then _ else _) = _;
     rw [if_neg hp, if_neg hsc]; rfl)

/-- C3: a NUMBER-family descriptor carrying `scale` with `precision` zero
normalizes to number(scale); the NUMBER variant TIMESTAMP_NTZ (the "no
timezone" variant) with scale 9 normalizes to timestamp instead. -/
theorem c3_number_precision_zero (d : RawType) (sc : Int)
    (hlen : d.length = none) (hscale : d.scale = some sc)
    (hprec : d.precision = some 0) :
    (d.type = "NUMBER" → normalizeDatatype d = some ("number(" ++ toString sc ++ ")"))
    ∧ (d.type = "TIMESTAMP_NTZ" → sc = 9 → normalizeDatatype d = some ("timestamp")) := by
  rcases d with ⟨ty, nb, fx, ln, pr, sc2⟩
  obtain rfl : ln = none := hlen
  obtain rfl : sc2 = some sc := hscale
  obtain rfl : pr = some 0 := hprec
  constructor
  · intro hty
    obtain rfl : ty = "NUMBER" := hty
    rw [normalizeDatatype_num_p0, if_neg (number_ne_timestamp (toString sc))]
    have e1 : pyLower ("NUMBER(") = "number(" := by decide
    have e2 : pyLower (")") = ")" := by decide
    rw [pyLower_append, pyLower_append, pyLower_intToString, e1, e2]
  · intro hty hsc
    obtain rfl : ty = "TIMESTAMP_NTZ" := hty
    subst hsc
    rcases fx with _ | b
    · cases nb <;> decide
    · cases nb <;> cases b <;> decide

/-- Witness data: a NUMBER descriptor with precision 0 and scale 3. -/
def c3rawA : RawType :=
  { type := "NUMBER", nullable := true, fixed := none, length := none,
    precision := some 0, scale := some 3 }

/-- Witness data: a TIMESTAMP_NTZ descriptor with precision 0 and scale 9. -/
def c3rawB : RawType :=
  { type := "TIMESTAMP_NTZ", nullable := true, fixed := none, length := none,
    precision := some 0, scale := some 9 }

theorem c3_witness :
    normalizeDatatype c3rawA = some ("number(" ++ toString (3 : Int) ++ ")") ∧
      normalizeDatatype c3rawB = some ("timestamp") :=
  ⟨(c3_number_precision_zero c3rawA 3 rfl rfl rfl).1 rfl,
    (c3_number_precision_zero c3rawB 9 rfl rfl rfl).2 rfl rfl⟩

/-- C6: a NUMBER descriptor carrying `scale` and a nonzero `precision`
normalizes to int when scale is 0 and precision is 38, to int(precision) when
scale is 0 and precision differs from 38, and to number(precision,scale) when
scale is nonzero; the result is lowercase in every case. -/
theorem c6_number_nonzero_precision (d : RawType) (p sc : Int)
    (hty : d.type = "NUMBER") (hlen : d.length = none) (hscale : d.scale = some sc)
    (hprec : d.precision = some p) (hp : p ≠ 0) :
    (sc = 0 → p = 38 → normalizeDatatype d = some ("int"))
    ∧ (sc = 0 → p ≠ 38 → normalizeDatatype d = some ("int(" ++ toString p ++ ")"))
    ∧ (sc ≠ 0 → normalizeDatatype d = some ("number(" ++ toString p ++ "," ++ toString sc ++ ")")) := by
  rcases d with ⟨ty, nb, fx, ln, pr, sc2⟩
  obtain rfl : ty = "NUMBER" := hty
  obtain rfl : ln = none := hlen
  obtain rfl : sc2 = some sc := hscale
  obtain rfl : pr = some p := hprec
  refine ⟨?_, ?_, ?_⟩
  · intro hsc hp38
    subst hsc
    subst hp38
    rcases fx with _ | b
    · cases nb <;> decide
    · cases nb <;> cases b <;> decide
  · intro hsc hp38
    subst hsc
    have h38 : ¬ ("NUMBER(" ++ toString p ++ ")") = "NUMBER(38)" := by
      intro h
      exact hp38 (toString_int_eq_38 p (number_append_inj _ h))
    rw [normalizeDatatype_num_s0 nb fx p hp, if_neg h38,
      if_pos (pyStartswith_number (toString p))]
    have e1 : pyLower ("INT(") = "int(" := by decide
    have e2 : pyLower (")") = ")" := by decide
    rw [pyLower_append, pyLower_append, pyLower_intToString, e1, e2]
  · intro hsc
    rw [normalizeDatatype_num_ps nb fx p sc hp hsc]
    have e1 : pyLower ("NUMBER(") = "number(" := by decide
    have e2 : pyLower (",") = "," := by decide
    have e3 : pyLower (")") = ")" := by decide
    rw [pyLower_append, pyLower_append, pyLower_append, pyLower_append,
      pyLower_intToString, pyLower_intToString, e1, e2, e3]

/-- Witness data: NUMBER descriptors with precisions 38, 5 and 10. -/
def c6rawA : RawType :=
  { type := "NUMBER", nullable := false, fixed := none, length := none,
    precision := some 38, scale := some 0 }

/-- Witness data: a NUMBER descriptor with precision 5 and scale 0. -/
def c6rawB : RawType :=
  { type := "NUMBER", nullable := true, fixed := none, length := none,
    precision := some 5, scale := some 0 }

/-- Witness data: a NUMBER descriptor with precision 10 and scale 2. -/
def c6rawC : RawType :=
  { type := "NUMBER", nullable := true, fixed := none, length := none,
    precision := some 10, scale := some 2 }

theorem c6_witness :
    normalizeDatatype c6rawA = some ("int") ∧
      normalizeDatatype c6rawB = some ("int(" ++ toString (5 : Int) ++ ")") ∧
      normalizeDatatype c6rawC =
        some ("number(" ++ toString (10 : Int) ++ "," ++ toString (2 : Int) ++ ")") :=
  ⟨(c6_number_nonzero_precision c6rawA 38 0 rfl rfl rfl rfl (by decide)).1 rfl rfl,
    (c6_number_nonzero_precision c6rawB 5 0 rfl rfl rfl rfl (by decide)).2.1 rfl (by decide),
    (c6_number_nonzero_precision c6rawC 10 2 rfl rfl rfl rfl (by decide)).2.2 (by decide)⟩

/-! ### Diagram edges (claim C7) -/

theorem foldlM_links_aux (g : (String × List String) → Option String) :
    ∀ (l : List (String × List String)) (acc : String),
      (∀ p ∈ l, (g p).isSome) →
      ∃ lines : List String,
        List.Forall₂ (fun p line => g p = some line) l lines ∧
        l.foldlM (fun s p => (g p).map (fun line => s ++ line)) acc =
          some (acc ++ String.join lines)
  | [], acc, _ => by
    refine ⟨[], List.Forall₂.nil, ?_⟩
    rw [show String.join [] = "" from rfl, String.append_empty]
    rfl
  | p :: l, acc, h => by
    obtain ⟨line, hline⟩ :=
      Option.isSome_iff_exists.mp (h p (List.mem_cons_self _ _))
    obtain ⟨lines, hf, hfold⟩ := foldlM_links_aux g l (acc ++ line)
      (fun q hq => h q (List.mem_cons_of_mem _ hq))
    refine ⟨line :: lines, List.Forall₂.cons hline hf, ?_⟩
    rw [List.foldlM_cons, hline]
    show l.foldlM _ (acc ++ line) = some (acc ++ String.join (line :: lines))
    rw [hfold]
    have hj : String.join (line :: lines) = line ++ String.join lines := by
      simp [String.join_eq, String.ext_iff, String.data_append]
    rw [hj, String.append_assoc]

/-- C7: every foreign-key constraint of a table yields exactly one edge line in
the diagram, drawn from the child table's label to the referenced (parent)
table's label; the line carries the dashed style exactly when the constraint's
first member column is nullable, and carries the crow arrowtail unless that
first member is itself a primary-key column and the child and parent tables
have the same number of primary-key columns.  The second part: when every
constraint resolves (as after a successful import), `getDotLinks` is the
concatenation of exactly one such line per constraint. -/
theorem c7_fk_edge_rendering (tables : Tables) (theme : String) (t : Table) :
    (∀ cname fkNames fkName rest fk1 ref pktable,
      (cname, fkNames) ∈ t.fks →
      fkNames = fkName :: rest →
      Table.getColumn t fkName = some fk1 →
      fk1.fkof = some ref →
      lookupTable tables ref.1 = some pktable →
      Table.getDotLink tables theme t fkNames =
        some ("  " ++ t.label ++ " -> " ++ pktable.label ++
          " [ penwidth=\x22" ++ edgePenWidth theme ++ "\x22 color=\x22" ++
          edgePenColor theme ++ "\x22" ++
          (if fk1.nullable = true then " style=\x22dashed\x22" else "") ++
          (if fk1.ispk = true ∧ t.pks.length = pktable.pks.length then ""
           else " arrowtail=\x22crow\x22") ++ " ]\n"))
    ∧ ((∀ p ∈ t.fks, (Table.getDotLink tables theme t p.2).isSome) →
      ∃ lines : List String,
        List.Forall₂ (fun p line => Table.getDotLink tables theme t p.2 = some line)
          t.fks lines ∧
        Table.getDotLinks tables theme t = some (String.join lines) ∧
        lines.length = t.fks.length) := by
  constructor
  · intro cname fkNames fkName rest fk1 ref pktable hmem hcons hcol hfkof hlook
    subst hcons
    simp only [Table.getDotLink, hcol, hfkof, hlook]
    cases hn : fk1.nullable <;> simp [hn]
  · intro h
    obtain ⟨lines, hf, hfold⟩ :=
      foldlM_links_aux (fun p => Table.getDotLink tables theme t p.2) t.fks "" h
    refine ⟨lines, hf, ?_, (List.Forall₂.length_eq hf).symm⟩
    show t.fks.foldlM _ "" = _
    rw [hfold, String.empty_append]

/-- Witness data: the parent table of a one-edge diagram. -/
def c7parent : Table :=
  { name := "P", comment := "", label := "n1",
    columns := [{ tableName := "P", name := "A", comment := "", nullable := false,
                  datatype := "int", identity := false, isunique := false,
                  ispk := true, fkof := none }],
    uniques := [], pks := ["A"], fks := [] }

/-- Witness data: the child table's foreign-key member column. -/
def c7fkcol : Column :=
  { tableName := "C", name := "B", comment := "", nullable := true,
    datatype := "int", identity := false, isunique := false, ispk := false,
    fkof := some ("P", "A") }

/-- Witness data: the child table with one foreign-key constraint. -/
def c7child : Table :=
  { name := "C", comment := "", label := "n2", columns := [c7fkcol],
    uniques := [], pks := [], fks := [("FK1", ["B"])] }

/-- Witness data: the two-table dictionary of the one-edge diagram. -/
def c7tables : Tables := [("P", c7parent), ("C", c7child)]

theorem c7_witness :
    Table.getDotLink c7tables "Common Gray" c7child ["B"] =
      some ("  n2 -> n1 [ penwidth=\x221\x22 color=\x22#696969\x22 style=\x22dashed\x22 arrowtail=\x22crow\x22 ]\n") ∧
    (∃ lines : List String,
      List.Forall₂
        (fun p line => Table.getDotLink c7tables "Common Gray" c7child p.2 = some line)
        c7child.fks lines ∧
      Table.getDotLinks c7tables "Common Gray" c7child = some (String.join lines) ∧
      lines.length = c7child.fks.length) :=
  ⟨(c7_fk_edge_rendering c7tables "Common Gray" c7child).1 "FK1" ["B"] "B" []
      c7fkcol ("P", "A") c7parent (by decide) rfl rfl rfl rfl,
    (c7_fk_edge_rendering c7tables "Common Gray" c7child).2 (by decide)⟩

/-! ### Cross-schema foreign keys (claim C1) -/

/-- C1: a foreign-key row whose parent schema differs from its child schema is
processed without a fatal fault: the step succeeds, the table dictionary is
returned unchanged (so no `fks` entry is added and no `fkof` is set anywhere),
and exactly the cross-schema warning message is appended. -/
theorem c1_cross_schema_fk (tables : Tables) (ws : List String) (row : FKRow)
    (pktable fktable : Table) (fkcolumn : Column)
    (hpt : lookupTable tables row.pkTableName = some pktable)
    (hft : lookupTable tables row.fkTableName = some fktable)
    (hfc : Table.getColumn fktable row.fkColumnName = some fkcolumn)
    (hs : row.pkSchema ≠ row.fkSchema) :
    importFKRow (tables, ws) row =
      Except.ok (tables, ws ++
        ["??? Relationship accross schemas, for " ++ fktable.name ++ "." ++
          fkcolumn.name ++ "!"]) := by
  unfold importFKRow
  simp only [hpt, hft, hfc]
  rw [if_pos hs]

/-- Witness data: a cross-schema foreign-key row between `c7tables` tables. -/
def c1row : FKRow :=
  { pkSchema := "X", pkTableName := "P", pkColumnName := "A",
    fkSchema := "Y", fkTableName := "C", fkColumnName := "B",
    constraintName := "FK1" }

theorem c1_witness :
    importFKRow (c7tables, []) c1row =
      Except.ok (c7tables, ["??? Relationship accross schemas, for C.B!"]) :=
  c1_cross_schema_fk c7tables [] c1row c7parent c7child c7fkcol rfl rfl rfl
    (by decide)

/-! ### Primary-key ordering (claim C8) -/

theorem lookupTable_dictUpdate_self (tables : Tables) (k : String) (t t0 : Table)
    (h : lookupTable tables k = some t0) :
    lookupTable (dictUpdate tables k t) k = some t := by
  induction tables with
  | nil => simp [lookupTable] at h
  | cons p rest ih =>
    by_cases hp : p.1 = k
    · have h1 : (if p.1 == k then (k, t) else p) = (k, t) := by simp [hp]
      show ((((if p.1 == k then (k, t) else p) :: dictUpdate rest k t).find?
        (fun q => q.1 == k)).map (fun q => q.2)) = some t
      rw [h1, List.find?_cons_of_pos]
      · rfl
      · simp
    · have h1 : (if p.1 == k then (k, t) else p) = p := by simp [hp]
      have h2 : lookupTable rest k = some t0 := by
        have h3 : ((List.find? (fun q => q.1 == k) (p :: rest)).map
          (fun q => q.2)) = some t0 := h
        rw [List.find?_cons_of_neg] at h3
        · exact h3
        · simp [hp]
      show ((((if p.1 == k then (k, t) else p) :: dictUpdate rest k t).find?
        (fun q => q.1 == k)).map (fun q => q.2)) = some t
      rw [h1, List.find?_cons_of_neg]
      · exact ih h2
      · simp [hp]

theorem lookupTable_dictUpdate_ne (tables : Tables) (k k2 : String) (t : Table)
    (h : k2 ≠ k) :
    lookupTable (dictUpdate tables k t) k2 = lookupTable tables k2 := by
  induction tables with
  | nil => rfl
  | cons p rest ih =>
    by_cases hp : p.1 = k
    · have h1 : (if p.1 == k then (k, t) else p) = (k, t) := by simp [hp]
      show ((((if p.1 == k then (k, t) else p) :: dictUpdate rest k t).find?
        (fun q => q.1 == k2)).map (fun q => q.2)) = lookupTable (p :: rest) k2
      rw [h1, List.find?_cons_of_neg]
      · show lookupTable (dictUpdate rest k t) k2 = _
        rw [ih]
        show lookupTable rest k2 = lookupTable (p :: rest) k2
        unfold lookupTable
        rw [List.find?_cons_of_neg]
        simp [hp]
        exact fun hh => h hh.symm
      · simp
        exact fun hh => h hh.symm
    · have h1 : (if p.1 == k then (k, t) else p) = p := by simp [hp]
      show ((((if p.1 == k then (k, t) else p) :: dictUpdate rest k t).find?
        (fun q => q.1 == k2)).map (fun q => q.2)) = lookupTable (p :: rest) k2
      rw [h1]
      by_cases hp2 : p.1 = k2
      · rw [List.find?_cons_of_pos]
        · unfold lookupTable
          rw [List.find?_cons_of_pos]
          simp [hp2]
        · simp [hp2]
      · rw [List.find?_cons_of_neg]
        · show lookupTable (dictUpdate rest k t) k2 = _
          rw [ih]
          unfold lookupTable
          rw [List.find?_cons_of_neg]
          simp [hp2]
        · simp [hp2]

theorem pyInsert_at_length {α : Type} (l : List α) (i : Int) (x : α)
    (h : i = (l.length : Int)) :
    pyInsert l i x = l ++ [x] := by
  subst h
  have h1 : ¬ ((l.length : Int) < 0) := by omega
  have h2 : ¬ ((l.length : Int) < (l.length : Int)) := by omega
  simp [pyInsert, h1, h2]

theorem importPKRow_same_table (tables : Tables) (r : PKRow) (t : Table)
    (tables1 : Tables)
    (hlk : lookupTable tables r.tableName = some t)
    (hstep : importPKRow tables r = Except.ok tables1) :
    ∃ c, Table.getColumn t r.columnName = some c ∧
      tables1 = dictUpdate tables r.tableName
        { Table.updateColumn t r.columnName (fun c2 => { c2 with ispk := true }) with
          pks := pyInsert t.pks (r.pos - 1) r.columnName } := by
  unfold importPKRow at hstep
  simp only [hlk] at hstep
  cases hcol : Table.getColumn t r.columnName with
  | none =>
    simp only [hcol] at hstep
    simp at hstep
  | some c =>
    simp only [hcol, Except.ok.injEq] at hstep
    exact ⟨c, rfl, hstep.symm⟩

theorem importPKs_sorted_aux :
    ∀ (rows : List PKRow) (tables : Tables) (tn : String) (t : Table)
      (tables2 : Tables),
      lookupTable tables tn = some t →
      (∀ r ∈ rows, r.tableName = tn) →
      (∀ i (hi : i < rows.length),
        (rows.get ⟨i, hi⟩).pos = (t.pks.length : Int) + (i : Int) + 1) →
      importPKs tables rows = Except.ok tables2 →
      ∃ t2, lookupTable tables2 tn = some t2 ∧
        t2.pks = t.pks ++ rows.map (fun r => r.columnName)
  | [], tables, tn, t, tables2, hlk, _, _, hok => by
    have h2 : (Except.ok tables : Except String Tables) = Except.ok tables2 := hok
    have h1 : tables2 = tables := ((Except.ok.injEq _ _).mp h2).symm
    subst h1
    exact ⟨t, hlk, by simp⟩
  | r :: rows, tables, tn, t, tables2, hlk, hall, hpos, hok => by
    have htn : r.tableName = tn := hall r (List.mem_cons_self _ _)
    rw [show importPKs tables (r :: rows) =
        (importPKRow tables r >>= fun s => importPKs s rows) from by
      simp [importPKs, List.foldlM_cons]] at hok
    cases hstep : importPKRow tables r with
    | error e =>
      rw [hstep] at hok
      have h2 : (Except.error e : Except String Tables) = Except.ok tables2 := hok
      simp at h2
    | ok tables1 =>
      rw [hstep] at hok
      have hok2 : importPKs tables1 rows = Except.ok tables2 := hok
      obtain ⟨c, hcol, hupd⟩ := importPKRow_same_table tables r t tables1
        (by rw [htn]; exact hlk) hstep
      have hpos0 := hpos 0 (by simp)
      have hposr : r.pos - 1 = (t.pks.length : Int) := by
        simp [List.get_cons_zero] at hpos0
        omega
      have ht3pks :
          ({ Table.updateColumn t r.columnName (fun c2 => { c2 with ispk := true }) with
             pks := pyInsert t.pks (r.pos - 1) r.columnName } : Table).pks =
            t.pks ++ [r.columnName] :=
        pyInsert_at_length t.pks (r.pos - 1) r.columnName hposr
      have hlk1 : lookupTable tables1 tn =
          some { Table.updateColumn t r.columnName (fun c2 => { c2 with ispk := true }) with
                 pks := pyInsert t.pks (r.pos - 1) r.columnName } := by
        rw [hupd, htn]
        exact lookupTable_dictUpdate_self tables tn _ t hlk
      obtain ⟨t2, hl2, hp2⟩ := importPKs_sorted_aux rows tables1 tn _ tables2 hlk1
        (fun x hx => hall x (List.mem_cons_of_mem _ hx))
        (by
          intro i hi
          have hstep2 := hpos (i+1) (by simp; omega)
          simp [List.get_cons_succ] at hstep2
          rw [ht3pks]
          simp at hstep2 ⊢
          omega)
        hok2
      refine ⟨t2, hl2, ?_⟩
      rw [hp2, ht3pks]
      simp

/-- Counterexample data: a table of three columns with no keys yet. -/
def c8col (n : String) : Column :=
  { tableName := "T", name := n, comment := "", nullable := true, datatype := "int",
    identity := false, isunique := false, ispk := false, fkof := none }

/-- Counterexample data: the pre-primary-key-phase table. -/
def c8start : Table :=
  { name := "T", comment := "", label := "n1",
    columns := [c8col "A", c8col "B", c8col "C"], uniques := [], pks := [],
    fks := [] }

/-- Counterexample data: the table dictionary before the primary-key phase. -/
def c8tables : Tables := [("T", c8start)]

/-- Counterexample data: the three primary-key rows arriving in the order of
positions 3, 2, 1. -/
def c8rows : List PKRow :=
  [{ tableName := "T", columnName := "C", pos := 3 },
   { tableName := "T", columnName := "B", pos := 2 },
   { tableName := "T", columnName := "A", pos := 1 }]

/-- C8 counterexample: when the three primary-key rows of a table arrive in
the order of positions 3, 2, 1, the imported `pks` list is A, C, B — the
column with declared position 2 ends at index 2 and the one with position 3 at
index 1 — so the ordering claim fails for this arrival order (Python
`list.insert` clamps the index into the list built so far). -/
theorem c8_counterexample :
    (importPKs c8tables c8rows).map
        (fun ts => (lookupTable ts "T").map (fun t => t.pks)) =
      Except.ok (some ["A", "C", "B"]) ∧
    (["A", "C", "B"] : List String) ≠ ["A", "B", "C"] :=
  ⟨rfl, by decide⟩

/-- C8 (amended): when the primary-key rows of a table arrive in ascending
key-sequence position — row number i carrying position i+1, which is the
sorted order the catalog emits — a successful primary-key phase leaves the
table's `pks` holding the rows' columns in exactly that order, so the column
with position k ends at index k-1. -/
theorem c8_pk_order_amended (rows : List PKRow) (tables tables2 : Tables)
    (tn : String) (t : Table)
    (hlk : lookupTable tables tn = some t)
    (hempty : t.pks = [])
    (hall : ∀ r ∈ rows, r.tableName = tn)
    (hpos : ∀ i (hi : i < rows.length), (rows.get ⟨i, hi⟩).pos = (i : Int) + 1)
    (hok : importPKs tables rows = Except.ok tables2) :
    ∃ t2, lookupTable tables2 tn = some t2 ∧
      t2.pks = rows.map (fun r => r.columnName) ∧
      ∀ i (hi : i < rows.length),
        t2.pks[i]? = some ((rows.get ⟨i, hi⟩).columnName) := by
  obtain ⟨t2, hl2, hp2⟩ := importPKs_sorted_aux rows tables tn t tables2 hlk hall
    (by
      intro i hi
      rw [hempty]
      simpa using hpos i hi)
    hok
  rw [hempty] at hp2
  simp only [List.nil_append] at hp2
  refine ⟨t2, hl2, hp2, ?_⟩
  intro i hi
  rw [hp2, List.getElem?_map, List.getElem?_eq_getElem hi]
  rfl

/-- Witness data: the same three primary-key rows in ascending order. -/
def c8sortedRows : List PKRow :=
  [{ tableName := "T", columnName := "A", pos := 1 },
   { tableName := "T", columnName := "B", pos := 2 },
   { tableName := "T", columnName := "C", pos := 3 }]

/-- Witness data: a column of `c8start` after its primary-key flag is set. -/
def c8colPk (n : String) : Column := { c8col n with ispk := true }

/-- Witness data: the table after the ascending-order primary-key phase. -/
def c8outTable : Table :=
  { name := "T", comment := "", label := "n1",
    columns := [c8colPk "A", c8colPk "B", c8colPk "C"], uniques := [],
    pks := ["A", "B", "C"], fks := [] }

theorem c8_witness :
    ∃ t2, lookupTable [("T", c8outTable)] "T" = some t2 ∧
      t2.pks = ["A", "B", "C"] := by
  obtain ⟨t2, h1, h2, h3⟩ := c8_pk_order_amended c8sortedRows c8tables
    [("T", c8outTable)] "T" c8start rfl rfl (by decide) (by decide) rfl
  exact ⟨t2, h1, h2⟩

/-! ### Foreign keys reference primary keys (claim C9) -/

/-- The reference (tn, cn) resolves, through the dictionary and the
first-match column search, to a column marked as primary key. -/
def resolvesPk (tables : Tables) (tn cn : String) : Prop :=
  ∃ t c, lookupTable tables tn = some t ∧ Table.getColumn t cn = some c ∧
    c.ispk = true

/-- Every set `fkof` reference in the model resolves to a primary-key
column. -/
def fkofValid (tables : Tables) : Prop :=
  ∀ p ∈ tables, ∀ c ∈ p.2.columns, ∀ ref : String × String,
    c.fkof = some ref → resolvesPk tables ref.1 ref.2

/-- No column of the model has its `fkof` set. -/
def noFkof (tables : Tables) : Prop :=
  ∀ p ∈ tables, ∀ c ∈ p.2.columns, c.fkof = none

theorem find?_updateFirst_pk (cn n2 : String) (f : Column → Column)
    (hname : ∀ x, (f x).name = x.name)
    (hpk : ∀ x, x.ispk = true → (f x).ispk = true) :
    ∀ (l : List Column) (c : Column),
      l.find? (fun x => x.name == cn) = some c → c.ispk = true →
      ∃ c2, (updateFirst l (fun x => x.name == n2) f).find?
          (fun x => x.name == cn) = some c2 ∧ c2.ispk = true
  | [], c, hfind, _ => by simp at hfind
  | a :: l, c, hfind, hcpk => by
    by_cases ha : a.name = cn
    · have hc : c = a := by
        rw [List.find?_cons_of_pos _ (by simp [ha])] at hfind
        exact (Option.some.injEq _ _).mp hfind.symm
      have hapk : a.ispk = true := hc ▸ hcpk
      by_cases ha2 : a.name = n2
      · rw [show updateFirst (a :: l) (fun x => x.name == n2) f = f a :: l from by
          simp [updateFirst, ha2]]
        refine ⟨f a, ?_, hpk a hapk⟩
        rw [List.find?_cons_of_pos _ (by simp [hname a, ha])]
      · rw [show updateFirst (a :: l) (fun x => x.name == n2) f =
            a :: updateFirst l (fun x => x.name == n2) f from by
          simp [updateFirst, ha2]]
        refine ⟨a, ?_, hapk⟩
        rw [List.find?_cons_of_pos _ (by simp [ha])]
    · have hfind2 : l.find? (fun x => x.name == cn) = some c := by
        rw [List.find?_cons_of_neg _ (by simp [ha])] at hfind
        exact hfind
      by_cases ha2 : a.name = n2
      · rw [show updateFirst (a :: l) (fun x => x.name == n2) f = f a :: l from by
          simp [updateFirst, ha2]]
        refine ⟨c, ?_, hcpk⟩
        rw [List.find?_cons_of_neg _ (by simp [hname a, ha])]
        exact hfind2
      · obtain ⟨c2, hc2, hc2pk⟩ := find?_updateFirst_pk cn n2 f hname hpk l c hfind2 hcpk
        rw [show updateFirst (a :: l) (fun x => x.name == n2) f =
            a :: updateFirst l (fun x => x.name == n2) f from by
          simp [updateFirst, ha2]]
        refine ⟨c2, ?_, hc2pk⟩
        rw [List.find?_cons_of_neg _ (by simp [ha])]
        exact hc2

theorem find?_updateFirst_self (cn : String) (f : Column → Column)
    (hname : ∀ x, (f x).name = x.name)
    (hforce : ∀ x, (f x).ispk = true) :
    ∀ (l : List Column) (c : Column),
      l.find? (fun x => x.name == cn) = some c →
      ∃ c2, (updateFirst l (fun x => x.name == cn) f).find?
          (fun x => x.name == cn) = some c2 ∧ c2.ispk = true
  | [], c, hfind => by simp at hfind
  | a :: l, c, hfind => by
    by_cases ha : a.name = cn
    · rw [show updateFirst (a :: l) (fun x => x.name == cn) f = f a :: l from by
        simp [updateFirst, ha]]
      refine ⟨f a, ?_, hforce a⟩
      rw [List.find?_cons_of_pos _ (by simp [hname a, ha])]
    · have hfind2 : l.find? (fun x => x.name == cn) = some c := by
        rw [List.find?_cons_of_neg _ (by simp [ha])] at hfind
        exact hfind
      obtain ⟨c2, hc2, hc2pk⟩ := find?_updateFirst_self cn f hname hforce l c hfind2
      rw [show updateFirst (a :: l) (fun x => x.name == cn) f =
          a :: updateFirst l (fun x => x.name == cn) f from by
        simp [updateFirst, ha]]
      refine ⟨c2, ?_, hc2pk⟩
      rw [List.find?_cons_of_neg _ (by simp [ha])]
      exact hc2

theorem mem_updateFirst {α : Type} (q : α → Bool) (f : α → α) :
    ∀ (l : List α) (x : α), x ∈ updateFirst l q f → x ∈ l ∨ ∃ y ∈ l, x = f y
  | [], x, hx => by simp [updateFirst] at hx
  | a :: l, x, hx => by
    by_cases ha : q a = true
    · rw [show updateFirst (a :: l) q f = f a :: l from by simp [updateFirst, ha]] at hx
      rcases List.mem_cons.mp hx with h1 | h1
      · exact Or.inr ⟨a, List.mem_cons_self _ _, h1⟩
      · exact Or.inl (List.mem_cons_of_mem _ h1)
    · rw [show updateFirst (a :: l) q f = a :: updateFirst l q f from by
        simp [updateFirst, ha]] at hx
      rcases List.mem_cons.mp hx with h1 | h1
      · exact Or.inl (h1 ▸ List.mem_cons_self _ _)
      · rcases mem_updateFirst q f l x h1 with h2 | ⟨y, hy, hxy⟩
        · exact Or.inl (List.mem_cons_of_mem _ h2)
        · exact Or.inr ⟨y, List.mem_cons_of_mem _ hy, hxy⟩

theorem mem_dictUpdate (tables : Tables) (k : String) (t : Table) :
    ∀ p ∈ dictUpdate tables k t, p ∈ tables ∨ p = (k, t) := by
  intro p hp
  unfold dictUpdate at hp
  obtain ⟨q, hq, hpq⟩ := List.mem_map.mp hp
  by_cases hq1 : (q.1 == k) = true
  · rw [if_pos hq1] at hpq
    exact Or.inr hpq.symm
  · rw [if_neg hq1] at hpq
    exact Or.inl (hpq ▸ hq)

theorem lookupTable_mem (tables : Tables) (tn : String) (t : Table)
    (h : lookupTable tables tn = some t) : ∃ q ∈ tables, q.2 = t := by
  unfold lookupTable at h
  obtain ⟨q, hq1, hq2⟩ := Option.map_eq_some'.mp h
  exact ⟨q, List.mem_of_find?_eq_some hq1, hq2⟩

theorem resolvesPk_dictUpdate (tables : Tables) (k n2 : String)
    (told tnew : Table) (f : Column → Column)
    (hlk : lookupTable tables k = some told)
    (hcols : tnew.columns = updateFirst told.columns (fun x => x.name == n2) f)
    (hname : ∀ x, (f x).name = x.name)
    (hpk : ∀ x, x.ispk = true → (f x).ispk = true) :
    ∀ tn cn, resolvesPk tables tn cn → resolvesPk (dictUpdate tables k tnew) tn cn := by
  rintro tn cn ⟨t, c, hl, hc, hcpk⟩
  by_cases htn : tn = k
  · subst htn
    have ht : t = told := by
      rw [hl] at hlk
      exact (Option.some.injEq _ _).mp hlk
    subst ht
    obtain ⟨c2, hc2, hc2pk⟩ := find?_updateFirst_pk cn n2 f hname hpk t.columns c hc hcpk
    refine ⟨tnew, c2, lookupTable_dictUpdate_self tables tn tnew t hl, ?_, hc2pk⟩
    show tnew.columns.find? (fun x => x.name == cn) = some c2
    rw [hcols]
    exact hc2
  · exact ⟨t, c, by rw [lookupTable_dictUpdate_ne tables k tn tnew htn]; exact hl,
      hc, hcpk⟩

theorem foldlM_except_inv {σ ρ : Type} (step : σ → ρ → Except String σ)
    (P : σ → Prop) (Q : ρ → Prop)
    (hstep : ∀ s r s2, Q r → step s r = Except.ok s2 → P s → P s2) :
    ∀ (rows : List ρ) (s s2 : σ), (∀ r ∈ rows, Q r) →
      List.foldlM step s rows = Except.ok s2 → P s → P s2
  | [], s, s2, _, hok, hP => by
    have h2 : (Except.ok s : Except String σ) = Except.ok s2 := hok
    have h1 : s2 = s := ((Except.ok.injEq _ _).mp h2).symm
    subst h1
    exact hP
  | r :: rows, s, s2, hQ, hok, hP => by
    rw [show List.foldlM step s (r :: rows) =
        (step s r >>= fun s1 => List.foldlM step s1 rows) from by
      simp [List.foldlM_cons]] at hok
    cases hs : step s r with
    | error e =>
      rw [hs] at hok
      have h2 : (Except.error e : Except String σ) = Except.ok s2 := hok
      simp at h2
    | ok s1 =>
      rw [hs] at hok
      have hok2 : List.foldlM step s1 rows = Except.ok s2 := hok
      exact foldlM_except_inv step P Q hstep rows s1 s2
        (fun x hx => hQ x (List.mem_cons_of_mem _ hx)) hok2
        (hstep s r s1 (hQ r (List.mem_cons_self _ _)) hs hP)

theorem importColumnRow_ok (tables : Tables) (row : ColumnRow) (tables1 : Tables)
    (hstep : importColumnRow tables row = Except.ok tables1) :
    ∃ table dt, lookupTable tables row.tableName = some table ∧
      normalizeDatatype row.datatype = some dt ∧
      tables1 = dictUpdate tables row.tableName
        { table with columns := table.columns ++
          [{ tableName := row.tableName, name := row.name, comment := row.comment,
             nullable := row.datatype.nullable, datatype := dt,
             identity := row.identityStr ≠ "", isunique := false, ispk := false,
             fkof := none }] } := by
  unfold importColumnRow at hstep
  cases hlk : lookupTable tables row.tableName with
  | none =>
    simp only [hlk] at hstep
    simp at hstep
  | some table =>
    simp only [hlk] at hstep
    cases hdt : normalizeDatatype row.datatype with
    | none =>
      simp only [hdt] at hstep
      simp at hstep
    | some dt =>
      simp only [hdt, Except.ok.injEq] at hstep
      exact ⟨table, dt, rfl, rfl, hstep.symm⟩

theorem importUniqueRow_ok (tables : Tables) (row : UniqueRow) (tables1 : Tables)
    (hstep : importUniqueRow tables row = Except.ok tables1) :
    ∃ table c, lookupTable tables row.tableName = some table ∧
      Table.getColumn table row.columnName = some c ∧
      tables1 = dictUpdate tables row.tableName
        (Table.updateColumn
          { table with uniques := dictAppend table.uniques row.constraintName row.columnName }
          row.columnName (fun c2 => { c2 with isunique := true })) := by
  unfold importUniqueRow at hstep
  cases hlk : lookupTable tables row.tableName with
  | none =>
    simp only [hlk] at hstep
    simp at hstep
  | some table =>
    simp only [hlk] at hstep
    cases hcol : Table.getColumn table row.columnName with
    | none =>
      simp only [hcol] at hstep
      simp at hstep
    | some c =>
      simp only [hcol, Except.ok.injEq] at hstep
      exact ⟨table, c, rfl, hcol, hstep.symm⟩

theorem importPKRow_ok (tables : Tables) (r : PKRow) (tables1 : Tables)
    (hstep : importPKRow tables r = Except.ok tables1) :
    ∃ table c, lookupTable tables r.tableName = some table ∧
      Table.getColumn table r.columnName = some c ∧
      tables1 = dictUpdate tables r.tableName
        { Table.updateColumn table r.columnName (fun c2 => { c2 with ispk := true }) with
          pks := pyInsert table.pks (r.pos - 1) r.columnName } := by
  unfold importPKRow at hstep
  cases hlk : lookupTable tables r.tableName with
  | none =>
    simp only [hlk] at hstep
    simp at hstep
  | some table =>
    simp only [hlk] at hstep
    cases hcol : Table.getColumn table r.columnName with
    | none =>
      simp only [hcol] at hstep
      simp at hstep
    | some c =>
      simp only [hcol, Except.ok.injEq] at hstep
      exact ⟨table, c, rfl, hcol, hstep.symm⟩

/-- Shape of the child table after one same-schema foreign-key row: the `fks`
constraint gains the member and the child column's `fkof` is assigned the
parent reference (or `None` when the parent column did not resolve). -/
def fkUpdatedTable (r : FKRow) (pktable fktable : Table) : Table :=
  Table.updateColumn
    { fktable with fks := dictAppend fktable.fks r.constraintName r.fkColumnName }
    r.fkColumnName
    (fun c => { c with fkof := Option.map (fun _ => (r.pkTableName, r.pkColumnName)) (Table.getColumn pktable r.pkColumnName) })

theorem importFKRow_ok (st : Tables × List String) (row : FKRow)
    (st2 : Tables × List String)
    (hstep : importFKRow st row = Except.ok st2) :
    ∃ pktable fktable fkcolumn,
      lookupTable st.1 row.pkTableName = some pktable ∧
      lookupTable st.1 row.fkTableName = some fktable ∧
      Table.getColumn fktable row.fkColumnName = some fkcolumn ∧
      (st2.1 = st.1 ∨
       (row.pkSchema = row.fkSchema ∧
        st2.1 = dictUpdate st.1 row.fkTableName (fkUpdatedTable row pktable fktable))) := by
  unfold importFKRow at hstep
  cases hpt : lookupTable st.1 row.pkTableName with
  | none =>
    simp only [hpt] at hstep
    simp at hstep
  | some pktable =>
    simp only [hpt] at hstep
    cases hft : lookupTable st.1 row.fkTableName with
    | none =>
      simp only [hft] at hstep
      simp at hstep
    | some fktable =>
      simp only [hft] at hstep
      cases hfc : Table.getColumn fktable row.fkColumnName with
      | none =>
        simp only [hfc] at hstep
        simp at hstep
      | some fkcolumn =>
        simp only [hfc] at hstep
        refine ⟨pktable, fktable, fkcolumn, rfl, rfl, hfc, ?_⟩
        by_cases hs : row.pkSchema ≠ row.fkSchema
        · rw [if_pos hs] at hstep
          simp only [Except.ok.injEq] at hstep
          exact Or.inl (congrArg Prod.fst hstep).symm
        · rw [if_neg hs] at hstep
          push_neg at hs
          simp only [Except.ok.injEq] at hstep
          exact Or.inr ⟨hs, (congrArg Prod.fst hstep).symm⟩

theorem fk_step_preserves (tables : Tables) (r : FKRow) (pktable fktable : Table)
    (hft : lookupTable tables r.fkTableName = some fktable) :
    ∀ tn cn, resolvesPk tables tn cn →
      resolvesPk (dictUpdate tables r.fkTableName (fkUpdatedTable r pktable fktable))
        tn cn :=
  resolvesPk_dictUpdate tables r.fkTableName r.fkColumnName fktable
    (fkUpdatedTable r pktable fktable)
    (fun c => { c with fkof := Option.map (fun _ => (r.pkTableName, r.pkColumnName)) (Table.getColumn pktable r.pkColumnName) })
    hft rfl (fun _ => rfl) (fun _ h => h)

theorem fk_step_fkofValid (tables : Tables) (r : FKRow) (pktable fktable : Table)
    (hft : lookupTable tables r.fkTableName = some fktable)
    (hv : fkofValid tables)
    (hres : resolvesPk tables r.pkTableName r.pkColumnName) :
    fkofValid (dictUpdate tables r.fkTableName (fkUpdatedTable r pktable fktable)) := by
  intro p hpmem c hc ref hcref
  have hpres := fk_step_preserves tables r pktable fktable hft
  rcases mem_dictUpdate _ _ _ p hpmem with hm | hm
  · exact hpres ref.1 ref.2 (hv p hm c hc ref hcref)
  · have hcc : c ∈ updateFirst fktable.columns (fun x => x.name == r.fkColumnName)
        (fun c2 => { c2 with fkof := Option.map (fun _ => (r.pkTableName, r.pkColumnName)) (Table.getColumn pktable r.pkColumnName) }) := by
      rw [hm] at hc
      exact hc
    rcases mem_updateFirst _ _ _ c hcc with hm2 | ⟨y, hy, hxy⟩
    · obtain ⟨q, hq, hq2⟩ := lookupTable_mem tables r.fkTableName fktable hft
      exact hpres ref.1 ref.2 (hv q hq c (by rw [hq2]; exact hm2) ref hcref)
    · have hvref : Option.map (fun _ => (r.pkTableName, r.pkColumnName)) (Table.getColumn pktable r.pkColumnName) = some ref := by
        rw [hxy] at hcref
        exact hcref
      obtain ⟨pc0, hpc0, hrefeq⟩ := Option.map_eq_some'.mp hvref
      have hres2 := hpres r.pkTableName r.pkColumnName hres
      rw [← hrefeq]
      exact hres2

theorem importFKs_inv :
    ∀ (frows : List FKRow) (pairs : List (String × String))
      (st st2 : Tables × List String),
      (∀ r ∈ frows, r.pkSchema = r.fkSchema →
        (r.pkTableName, r.pkColumnName) ∈ pairs) →
      List.foldlM importFKRow st frows = Except.ok st2 →
      fkofValid st.1 →
      (∀ q ∈ pairs, resolvesPk st.1 q.1 q.2) →
      fkofValid st2.1 ∧ ∀ q ∈ pairs, resolvesPk st2.1 q.1 q.2
  | [], pairs, st, st2, _, hok, hv, hp => by
    have h2 : (Except.ok st : Except String (Tables × List String)) =
      Except.ok st2 := hok
    have h1 : st2 = st := ((Except.ok.injEq _ _).mp h2).symm
    subst h1
    exact ⟨hv, hp⟩
  | r :: frows, pairs, st, st2, hcat, hok, hv, hp => by
    rw [show List.foldlM importFKRow st (r :: frows) =
        (importFKRow st r >>= fun s1 => List.foldlM importFKRow s1 frows) from by
      simp [List.foldlM_cons]] at hok
    cases hs : importFKRow st r with
    | error e =>
      rw [hs] at hok
      have h2 : (Except.error e : Except String (Tables × List String)) =
        Except.ok st2 := hok
      simp at h2
    | ok st1 =>
      rw [hs] at hok
      have hok2 : List.foldlM importFKRow st1 frows = Except.ok st2 := hok
      obtain ⟨pktable, fktable, fkcolumn, hpt, hft, hfc, hcase⟩ :=
        importFKRow_ok st r st1 hs
      have hv1 : fkofValid st1.1 ∧ ∀ q ∈ pairs, resolvesPk st1.1 q.1 q.2 := by
        rcases hcase with h1 | ⟨hsch, h1⟩
        · rw [h1]
          exact ⟨hv, hp⟩
        · rw [h1]
          have hres : resolvesPk st.1 r.pkTableName r.pkColumnName :=
            hp (r.pkTableName, r.pkColumnName)
              (hcat r (List.mem_cons_self _ _) hsch)
          refine ⟨fk_step_fkofValid st.1 r pktable fktable hft hv hres, ?_⟩
          intro q hq
          exact fk_step_preserves st.1 r pktable fktable hft q.1 q.2 (hp q hq)
      exact importFKs_inv frows pairs st1 st2
        (fun x hx => hcat x (List.mem_cons_of_mem _ hx)) hok2 hv1.1 hv1.2

theorem noFkof_dictUpdate (tables : Tables) (k : String) (tnew : Table)
    (hno : noFkof tables)
    (hcols : ∀ c ∈ tnew.columns, c.fkof = none) :
    noFkof (dictUpdate tables k tnew) := by
  intro p hp c hc
  rcases mem_dictUpdate tables k tnew p hp with h1 | h1
  · exact hno p h1 c hc
  · rw [h1] at hc
    exact hcols c hc

theorem importTables_columns_nil :
    ∀ (rows : List TableRow) (acc : Tables),
      (∀ p ∈ acc, p.2.columns = ([] : List Column)) →
      ∀ p ∈ rows.foldl importTableRow acc, p.2.columns = []
  | [], acc, hacc => by simpa using hacc
  | row :: rows, acc, hacc => by
    show ∀ p ∈ rows.foldl importTableRow (importTableRow acc row), p.2.columns = []
    apply importTables_columns_nil rows
    intro p hp
    unfold importTableRow dictInsert at hp
    split at hp
    · rcases mem_dictUpdate _ _ _ p hp with h1 | h1
      · exact hacc p h1
      · rw [h1]
    · rcases List.mem_append.mp hp with h1 | h1
      · exact hacc p h1
      · rw [List.mem_singleton.mp h1]

theorem importTables_noFkof (rows : List TableRow) : noFkof (importTables rows) := by
  intro p hp c hc
  have h := importTables_columns_nil rows [] (by simp) p hp
  rw [h] at hc
  simp at hc

theorem importColumns_noFkof (rows : List ColumnRow) (tables tables2 : Tables)
    (hok : importColumns tables rows = Except.ok tables2) (h0 : noFkof tables) :
    noFkof tables2 := by
  refine foldlM_except_inv importColumnRow noFkof (fun _ => True) ?_ rows tables
    tables2 (fun _ _ => trivial) hok h0
  intro s r s2 _ hstep hP
  obtain ⟨table, dt, hlk, hdt, hupd⟩ := importColumnRow_ok s r s2 hstep
  subst hupd
  apply noFkof_dictUpdate s r.tableName _ hP
  intro c hc
  rcases List.mem_append.mp hc with h1 | h1
  · obtain ⟨q, hq, hq2⟩ := lookupTable_mem s r.tableName table hlk
    exact hP q hq c (by rw [hq2]; exact h1)
  · rw [List.mem_singleton.mp h1]

theorem importUniques_noFkof (rows : List UniqueRow) (tables tables2 : Tables)
    (hok : importUniques tables rows = Except.ok tables2) (h0 : noFkof tables) :
    noFkof tables2 := by
  refine foldlM_except_inv importUniqueRow noFkof (fun _ => True) ?_ rows tables
    tables2 (fun _ _ => trivial) hok h0
  intro s r s2 _ hstep hP
  obtain ⟨table, c0, hlk, hcol, hupd⟩ := importUniqueRow_ok s r s2 hstep
  subst hupd
  apply noFkof_dictUpdate s r.tableName _ hP
  intro c hc
  have hcc : c ∈ updateFirst table.columns (fun x => x.name == r.columnName)
      (fun c2 => { c2 with isunique := true }) := hc
  obtain ⟨q, hq, hq2⟩ := lookupTable_mem s r.tableName table hlk
  rcases mem_updateFirst _ _ _ c hcc with h1 | ⟨y, hy, hxy⟩
  · exact hP q hq c (by rw [hq2]; exact h1)
  · rw [hxy]
    show y.fkof = none
    exact hP q hq y (by rw [hq2]; exact hy)

theorem importPKs_noFkof (rows : List PKRow) (tables tables2 : Tables)
    (hok : importPKs tables rows = Except.ok tables2) (h0 : noFkof tables) :
    noFkof tables2 := by
  refine foldlM_except_inv importPKRow noFkof (fun _ => True) ?_ rows tables
    tables2 (fun _ _ => trivial) hok h0
  intro s r s2 _ hstep hP
  obtain ⟨table, c0, hlk, hcol, hupd⟩ := importPKRow_ok s r s2 hstep
  subst hupd
  apply noFkof_dictUpdate s r.tableName _ hP
  intro c hc
  have hcc : c ∈ updateFirst table.columns (fun x => x.name == r.columnName)
      (fun c2 => { c2 with ispk := true }) := hc
  obtain ⟨q, hq, hq2⟩ := lookupTable_mem s r.tableName table hlk
  rcases mem_updateFirst _ _ _ c hcc with h1 | ⟨y, hy, hxy⟩
  · exact hP q hq c (by rw [hq2]; exact h1)
  · rw [hxy]
    show y.fkof = none
    exact hP q hq y (by rw [hq2]; exact hy)

theorem importPKs_marks :
    ∀ (rows : List PKRow) (tables tables2 : Tables),
      importPKs tables rows = Except.ok tables2 →
      (∀ tn cn, resolvesPk tables tn cn → resolvesPk tables2 tn cn) ∧
      (∀ r ∈ rows, resolvesPk tables2 r.tableName r.columnName)
  | [], tables, tables2, hok => by
    have h2 : (Except.ok tables : Except String Tables) = Except.ok tables2 := hok
    have h1 : tables2 = tables := ((Except.ok.injEq _ _).mp h2).symm
    subst h1
    exact ⟨fun _ _ h => h, by simp⟩
  | r :: rows, tables, tables2, hok => by
    rw [show importPKs tables (r :: rows) =
        (importPKRow tables r >>= fun s => importPKs s rows) from by
      simp [importPKs, List.foldlM_cons]] at hok
    cases hs : importPKRow tables r with
    | error e =>
      rw [hs] at hok
      have h2 : (Except.error e : Except String Tables) = Except.ok tables2 := hok
      simp at h2
    | ok tables1 =>
      rw [hs] at hok
      have hok2 : importPKs tables1 rows = Except.ok tables2 := hok
      obtain ⟨pres2, marks2⟩ := importPKs_marks rows tables1 tables2 hok2
      obtain ⟨table, c0, hlk, hcol, hupd⟩ := importPKRow_ok tables r tables1 hs
      subst hupd
      have hpres1 : ∀ tn cn, resolvesPk tables tn cn →
          resolvesPk (dictUpdate tables r.tableName
            { Table.updateColumn table r.columnName
                (fun c2 => { c2 with ispk := true }) with
              pks := pyInsert table.pks (r.pos - 1) r.columnName }) tn cn :=
        resolvesPk_dictUpdate tables r.tableName r.columnName table _
          (fun c2 => { c2 with ispk := true }) hlk rfl (fun _ => rfl)
          (fun _ _ => rfl)
      have hmarkr : resolvesPk (dictUpdate tables r.tableName
          { Table.updateColumn table r.columnName
              (fun c2 => { c2 with ispk := true }) with
            pks := pyInsert table.pks (r.pos - 1) r.columnName })
          r.tableName r.columnName := by
        obtain ⟨c2, hc2, hc2pk⟩ := find?_updateFirst_self r.columnName
          (fun c2 => { c2 with ispk := true }) (fun _ => rfl) (fun _ => rfl)
          table.columns c0 hcol
        exact ⟨_, c2, lookupTable_dictUpdate_self tables r.tableName _ table hlk,
          hc2, hc2pk⟩
      refine ⟨fun tn cn h => pres2 tn cn (hpres1 tn cn h), ?_⟩
      intro x hx
      rcases List.mem_cons.mp hx with h1 | h1
      · rw [h1]
        exact pres2 _ _ hmarkr
      · exact marks2 x h1

/-- C9 (amended): after a successful import whose same-schema foreign-key rows
all name a parent (table, column) pair that occurs among the primary-key rows
(the catalog guarantees this; the code itself does not check it), every column
whose `fkof` is set references a column whose `ispk` is true on its own
table. -/
theorem c9_fkof_targets_pk_amended (trows : List TableRow)
    (crows : List ColumnRow) (urows : List UniqueRow) (prows : List PKRow)
    (frows : List FKRow) (tables : Tables) (ws : List String)
    (hok : importMetadata trows crows urows prows frows = Except.ok (tables, ws))
    (hcat : ∀ r ∈ frows, r.pkSchema = r.fkSchema →
      (r.pkTableName, r.pkColumnName) ∈
        prows.map (fun q => (q.tableName, q.columnName))) :
    ∀ p ∈ tables, ∀ c ∈ p.2.columns, ∀ ref : String × String,
      c.fkof = some ref →
      ∃ pt pc, lookupTable tables ref.1 = some pt ∧
        Table.getColumn pt ref.2 = some pc ∧ pc.ispk = true := by
  unfold importMetadata at hok
  cases h1 : importColumns (importTables trows) crows with
  | error e =>
    simp only [h1] at hok
    simp at hok
  | ok t1 =>
    simp only [h1] at hok
    cases h2 : importUniques t1 urows with
    | error e =>
      simp only [h2] at hok
      simp at hok
    | ok t2 =>
      simp only [h2] at hok
      cases h3 : importPKs t2 prows with
      | error e =>
        simp only [h3] at hok
        simp at hok
      | ok t3 =>
        simp only [h3] at hok
        have n1 : noFkof t1 :=
          importColumns_noFkof crows (importTables trows) t1 h1
            (importTables_noFkof trows)
        have n2 : noFkof t2 := importUniques_noFkof urows t1 t2 h2 n1
        have n3 : noFkof t3 := importPKs_noFkof prows t2 t3 h3 n2
        have marks := (importPKs_marks prows t2 t3 h3).2
        have pairRes : ∀ q ∈ prows.map (fun q => (q.tableName, q.columnName)),
            resolvesPk t3 q.1 q.2 := by
          intro q hq
          obtain ⟨pr, hpr, hq2⟩ := List.mem_map.mp hq
          rw [← hq2]
          exact marks pr hpr
        have fkv0 : fkofValid t3 := by
          intro p hp c hc ref hcref
          rw [n3 p hp c hc] at hcref
          simp at hcref
        have hfinal := importFKs_inv frows
          (prows.map (fun q => (q.tableName, q.columnName))) (t3, [])
          (tables, ws) hcat hok fkv0 pairRes
        intro p hp c hc ref hcref
        obtain ⟨pt, pc, hl, hg, hpk⟩ := hfinal.1 p hp c hc ref hcref
        exact ⟨pt, pc, hl, hg, hpk⟩

/-- Counterexample data: NUMBER(38,0) descriptor used by the C9 fixtures. -/
def c9raw : RawType :=
  { type := "NUMBER", nullable := false, fixed := none, length := none,
    precision := some 38, scale := some 0 }

/-- Counterexample data: two table rows. -/
def c9xTrows : List TableRow :=
  [{ name := "T", comment := "" }, { name := "S", comment := "" }]

/-- Counterexample data: one column per table. -/
def c9xCrows : List ColumnRow :=
  [{ tableName := "T", name := "A", datatype := c9raw, comment := "", identityStr := "" },
   { tableName := "S", name := "B", datatype := c9raw, comment := "", identityStr := "" }]

/-- Counterexample data: one same-schema foreign-key row whose parent column
never appears among the primary-key rows. -/
def c9xFrows : List FKRow :=
  [{ pkSchema := "X", pkTableName := "T", pkColumnName := "A",
     fkSchema := "X", fkTableName := "S", fkColumnName := "B",
     constraintName := "FK1" }]

/-- Counterexample data: the parent column after import — never marked PK. -/
def c9xACol : Column :=
  { tableName := "T", name := "A", comment := "", nullable := false,
    datatype := "int", identity := false, isunique := false, ispk := false,
    fkof := none }

/-- Counterexample data: the child column after import, `fkof` set. -/
def c9xBCol : Column :=
  { tableName := "S", name := "B", comment := "", nullable := false,
    datatype := "int", identity := false, isunique := false, ispk := false,
    fkof := some ("T", "A") }

/-- Counterexample data: the parent table after import. -/
def c9xTTable : Table :=
  { name := "T", comment := "", label := "n1", columns := [c9xACol],
    uniques := [], pks := [], fks := [] }

/-- Counterexample data: the child table after import. -/
def c9xSTable : Table :=
  { name := "S", comment := "", label := "n2", columns := [c9xBCol],
    uniques := [], pks := [], fks := [("FK1", ["B"])] }

/-- Counterexample data: the full imported dictionary. -/
def c9xTables : Tables := [("T", c9xTTable), ("S", c9xSTable)]

/-- C9 counterexample: an import with no primary-key rows and one same-schema
foreign-key row succeeds and leaves column B with `fkof` set to (T, A), while
column A has `ispk = false` — the code links foreign keys without checking
that the referenced column is a primary key, so the invariant fails on this
input. -/
theorem c9_counterexample :
    importMetadata c9xTrows c9xCrows [] [] c9xFrows =
      Except.ok (c9xTables, []) ∧
    lookupTable c9xTables "S" = some c9xSTable ∧
    Table.getColumn c9xSTable "B" = some c9xBCol ∧
    c9xBCol.fkof = some ("T", "A") ∧
    lookupTable c9xTables "T" = some c9xTTable ∧
    Table.getColumn c9xTTable "A" = some c9xACol ∧
    c9xACol.ispk = false :=
  ⟨rfl, rfl, rfl, rfl, rfl, rfl, rfl⟩

/-- Witness data: one primary-key row marking T.A. -/
def c9wProws : List PKRow := [{ tableName := "T", columnName := "A", pos := 1 }]

/-- Witness data: the parent column once the primary-key phase marked it. -/
def c9wACol : Column := { c9xACol with ispk := true }

/-- Witness data: the parent table of the well-formed import. -/
def c9wTTable : Table :=
  { name := "T", comment := "", label := "n1", columns := [c9wACol],
    uniques := [], pks := ["A"], fks := [] }

/-- Witness data: the dictionary produced by the well-formed import. -/
def c9wTables : Tables := [("T", c9wTTable), ("S", c9xSTable)]

theorem c9_witness :
    ∃ pt pc, lookupTable c9wTables "T" = some pt ∧
      Table.getColumn pt "A" = some pc ∧ pc.ispk = true :=
  c9_fkof_targets_pk_amended c9xTrows c9xCrows [] c9wProws c9xFrows c9wTables []
    rfl (by decide) ("S", c9xSTable) (by decide) c9xBCol (by decide) ("T", "A") rfl
